import Mathlib

/-!
Shallow embedding of the `cs294-158-ssl` repository (context-encoder
self-supervised learning task and the linear-classifier training driver).

Tensors are embedded as total functions over `Fin`-indexed coordinates with
rational entries (real-valued floats are modelled by `ℚ`; no floating-point
rounding is modelled).  The convolutional encoder and decoder are
framework-provided layers (`nn.Conv2d`, `nn.BatchNorm2d`, ...) whose learned
weights are runtime data; they are embedded as arbitrary function-valued
fields of the `ContextEncoder` structure, while their shape behaviour is
embedded separately (see the `ConvSpec` development below).  Python's object
aliasing is embedded by explicit state passing: each method returns, next to
its result, the final value of the caller's `images` tensor.
-/

/-- An image batch of shape `(B, 3, 128, 128)` (`src/deepul_helper/tasks/context_encoder.py`). -/
def Img (B : ℕ) : Type := Fin B → Fin 3 → Fin 128 → Fin 128 → ℚ

/-- A `64 × 64` center-crop batch of shape `(B, 3, 64, 64)`. -/
def Crop (B : ℕ) : Type := Fin B → Fin 3 → Fin 64 → Fin 64 → ℚ

/-- The encoder output of shape `(B, 1024, 1, 1)`, with the two trailing
singleton spatial dimensions collapsed (each holds exactly one element). -/
def Enc (B : ℕ) : Type := Fin B → Fin 1024 → ℚ

/-- The `ContextEncoder` model for batch size `B`.  The fields embed the two
`nn.Sequential` stacks built in `ContextEncoder.__init__`; their learned
parameters are runtime data, so the stacks are arbitrary functions of the
stated shapes. -/
structure ContextEncoder (B : ℕ) where
  encoder : Img B → Enc B
  decoder : Enc B → Crop B

namespace ContextEncoder

/-- `latent_dim = 1024` class attribute. -/
def latent_dim : ℕ := 1024

/-- The mask constant written into channel `c`:
`2 * 117/255 - 1`, `2 * 104/255 - 1`, `2 * 123/255 - 1` for channels 0, 1, 2
(lines 60–62 and 72–74 of `context_encoder.py`). -/
def maskVal (c : Fin 3) : ℚ :=
  if c.val = 0 then 2 * (117 / 255) - 1
  else if c.val = 1 then 2 * (104 / 255) - 1
  else 2 * (123 / 255) - 1

/-- One slice assignment `x[:, ch, 32+4:32+64-4, 32+4:32+64-4] = v`:
rows and columns `36 ≤ · < 92` of channel `ch` are set to `v`, everything
else is unchanged. -/
def setCenter (x : Img B) (ch : Fin 3) (v : ℚ) : Img B :=
  fun b c i j =>
    if c = ch ∧ 36 ≤ i.val ∧ i.val < 92 ∧ 36 ≤ j.val ∧ j.val < 92 then v
    else x b c i j

/-- The masked image built inside `forward` (lines 58–63): `images.clone()`
followed by the three per-channel slice assignments. -/
def forwardMasked (images : Img B) : Img B :=
  setCenter (setCenter (setCenter images 0 (2 * (117 / 255) - 1))
      1 (2 * (104 / 255) - 1))
    2 (2 * (123 / 255) - 1)

/-- The masked image built inside `encode` (lines 71–74): the same three
slice assignments, applied to `images` itself (`images_masked = images`
aliases, there is no `.clone()`). -/
def encodeMasked (images : Img B) : Img B :=
  setCenter (setCenter (setCenter images 0 (2 * (117 / 255) - 1))
      1 (2 * (104 / 255) - 1))
    2 (2 * (123 / 255) - 1)

/-- `images[:, :, 32:32+64, 32:32+64]`: the `64 × 64` center crop (line 58). -/
def centerCrop (images : Img B) : Crop B :=
  fun b c i j =>
    images b c ⟨32 + i.val, by omega⟩ ⟨32 + j.val, by omega⟩

/-- `F.mse_loss x y` with the default `mean` reduction: the average of the
squared differences over all `B * 3 * 64 * 64` elements. -/
def mseLoss (x y : Crop B) : ℚ :=
  (∑ b : Fin B, ∑ c : Fin 3, ∑ i : Fin 64, ∑ j : Fin 64,
      (x b c i j - y b c i j) ^ 2) / (B * 3 * 64 * 64 : ℚ)

/-- `ContextEncoder.forward(images)` (lines 56–68).  The result is the pair
`(Loss, torch.flatten(z, 1))`; the metrics dict `dict(Loss=...)` has the
single key `Loss` and is embedded as the bare loss value.  The second
component of the outer pair is the final value of the caller's `images`
tensor: `forward` only writes into the clone `images_masked`, so the
caller's tensor keeps its original value. -/
def forward (m : ContextEncoder B) (images : Img B) : (ℚ × Enc B) × Img B :=
  let images_center := centerCrop images
  let images_masked := forwardMasked images
  let z := m.encoder images_masked
  let center_recon := m.decoder z
  ((mseLoss center_recon images_center, fun b k => z b k), images)

/-- `ContextEncoder.encode(images)` (lines 70–75).  The result is
`self.encoder(images_masked).view(images.shape[0], -1)`.  The second
component is the final value of the caller's `images` tensor: since
`images_masked = images` aliases the argument, the three slice assignments
mutate the caller's tensor, whose final value is `encodeMasked images`. -/
def encode (m : ContextEncoder B) (images : Img B) : Enc B × Img B :=
  let images_masked := encodeMasked images
  ((fun b k => m.encoder images_masked b k), images_masked)

end ContextEncoder

/-! ### Shape semantics of the encoder stack

`nn.Conv2d(inC, outC, k, stride=s, padding=p)` maps a spatial extent `n` to
`(n + 2p - k) / s + 1` (floor division); `nn.BatchNorm2d` and
`nn.LeakyReLU` are elementwise and preserve shape.  The encoder built in
`ContextEncoder.__init__` (lines 16–34) is six convolutions; the last one,
`nn.Conv2d(512, 1024, 4)`, has the `nn.Conv2d` defaults `stride=1`,
`padding=0`. -/

/-- One `nn.Conv2d` layer: channels and spatial hyperparameters. -/
structure ConvSpec where
  inC : ℕ
  outC : ℕ
  k : ℕ
  s : ℕ
  p : ℕ

/-- Spatial output extent of a convolution: `(n + 2p - k) / s + 1`. -/
def convOut (n k s p : ℕ) : ℕ := (n + 2 * p - k) / s + 1

/-- A tensor shape `(channels, height, width)` of one example. -/
def applyConv (l : ConvSpec) (sh : ℕ × ℕ × ℕ) : ℕ × ℕ × ℕ :=
  (l.outC, convOut sh.2.1 l.k l.s l.p, convOut sh.2.2 l.k l.s l.p)

/-- The six `nn.Conv2d` layers of `self.encoder`, in order (lines 16–34). -/
def encoderSpecs : List ConvSpec :=
  [⟨3, 64, 4, 2, 1⟩, ⟨64, 64, 4, 2, 1⟩, ⟨64, 128, 4, 2, 1⟩,
   ⟨128, 256, 4, 2, 1⟩, ⟨256, 512, 4, 2, 1⟩, ⟨512, 1024, 4, 1, 0⟩]

/-- Per-example output shape of `self.encoder` on a `(3, 128, 128)` input. -/
def encoderOutShape : ℕ × ℕ × ℕ :=
  encoderSpecs.foldl (fun sh l => applyConv l sh) (3, 128, 128)

/-- Shape of `self.encoder(images_masked).view(images.shape[0], -1)`: the
`.view(B, -1)` call flattens the per-example output to one dimension. -/
def encodeOutShape (B : ℕ) : ℕ × ℕ :=
  (B, encoderOutShape.1 * encoderOutShape.2.1 * encoderOutShape.2.2)

/-! ### The `train_linear_classifier` driver

`validate` returns the epoch's top-1 accuracy; its value depends on real
data and the trained weights, so the epoch accuracies are modelled as an
arbitrary given list `accs` and the loop (lines 64–76 of
`train_linear_classifier.py`) is embedded over it.  A checkpoint record
keeps the two fields the claims speak about (`epoch` and `best_acc`); the
opaque `state_dict`/`optimizer` blobs carry no information the claims use
and are omitted.  The filesystem is the pair of files `save_checkpoint`
touches in the output directory. -/

/-- The checkpoint record written by the loop body:
`{'epoch': epoch + 1, ..., 'best_acc': best_acc, ...}`. -/
structure Ckpt where
  epoch : ℕ
  best_acc : ℚ
deriving DecidableEq

/-- The two files of the output directory: `checkpoint.pth.tar` and
`model_best.pth.tar` (`none` = the file does not exist yet). -/
structure FS where
  checkpointFile : Option Ckpt
  modelBestFile : Option Ckpt
deriving DecidableEq

/-- `save_checkpoint(state, is_best, args)` (lines 161–165): always writes
`checkpoint.pth.tar`; iff `is_best`, copies it over `model_best.pth.tar`. -/
def save_checkpoint (fs : FS) (state : Ckpt) (is_best : Bool) : FS :=
  { checkpointFile := some state
    modelBestFile := if is_best then some state else fs.modelBestFile }

/-- One iteration of the epoch loop (lines 65–76), acting on the running
`best_acc` and the filesystem; `epoch` is the loop index and `acc` the
value `validate` returned this epoch. -/
def epochStep (epoch : ℕ) (acc : ℚ) : ℚ × FS → ℚ × FS :=
  fun st =>
    let best_acc := st.1
    let is_best : Bool := acc > best_acc
    let best_acc2 := max acc best_acc
    (best_acc2, save_checkpoint st.2 ⟨epoch + 1, best_acc2⟩ is_best)

/-- The loop state `(best_acc, filesystem)` after the first `k` epochs have
run, given the list of per-epoch validation accuracies; `best_acc` starts
at `0` and the output directory starts empty. -/
def loopState (accs : List ℚ) : ℕ → ℚ × FS
  | 0 => (0, ⟨none, none⟩)
  | k + 1 =>
    match accs.get? k with
    | some a => epochStep k a (loopState accs k)
    | none => loopState accs k

/-- The four recognised pretext tasks of the dispatch in `main`
(lines 44–53). -/
inductive PretextTask where
  | context_encoder
  | rotation
  | cpc
  | simclr
deriving DecidableEq

/-- The `--task` dispatch in `main` (lines 44–53): the four recognised
strings select a model class; anything else hits the final
`raise Exception('Invalid task:', args.task)`. -/
def selectModel (task : String) : Except String PretextTask :=
  if task = "context_encoder" then .ok .context_encoder
  else if task = "rotation" then .ok .rotation
  else if task = "cpc" then .ok .cpc
  else if task = "simclr" then .ok .simclr
  else .error "Invalid task"

/-- `main` after argument parsing: the task dispatch runs before any
training; only when it succeeds does the epoch loop run, producing the
final loop state. -/
def mainRun (task : String) (accs : List ℚ) : Except String (ℚ × FS) :=
  (selectModel task).map (fun _ => loopState accs accs.length)

/-! ### Pixel-level characterization of the masking step -/

/-- Pointwise value of the masked image built in `encode`: the mask constant
of the pixel's channel on rows and columns `36..91`, the original pixel
elsewhere. -/
lemma encodeMasked_pixel (B : ℕ) (images : Img B) (b : Fin B) (c : Fin 3)
    (i j : Fin 128) :
    ContextEncoder.encodeMasked images b c i j =
      if 36 ≤ i.val ∧ i.val ≤ 91 ∧ 36 ≤ j.val ∧ j.val ≤ 91 then
        ContextEncoder.maskVal c
      else images b c i j := by
  unfold ContextEncoder.encodeMasked ContextEncoder.setCenter ContextEncoder.maskVal
  by_cases hQ : 36 ≤ i.val ∧ i.val ≤ 91 ∧ 36 ≤ j.val ∧ j.val ≤ 91
  · have hR : 36 ≤ i.val ∧ i.val < 92 ∧ 36 ≤ j.val ∧ j.val < 92 := by omega
    fin_cases c <;> simp [hR, hQ]
  · have hR : ¬(36 ≤ i.val ∧ i.val < 92 ∧ 36 ≤ j.val ∧ j.val < 92) := by omega
    simp [hR, hQ]

/-- Pointwise value of the masked image built in `forward` (the same three
slice assignments, applied to the clone). -/
lemma forwardMasked_pixel (B : ℕ) (images : Img B) (b : Fin B) (c : Fin 3)
    (i j : Fin 128) :
    ContextEncoder.forwardMasked images b c i j =
      if 36 ≤ i.val ∧ i.val ≤ 91 ∧ 36 ≤ j.val ∧ j.val ≤ 91 then
        ContextEncoder.maskVal c
      else images b c i j :=
  encodeMasked_pixel B images b c i j

/-- C3: In both `ContextEncoder.forward` and `ContextEncoder.encode`, the
masking step overwrites exactly the `56 × 56` inner region (rows and
columns `36..91`) of the image, setting channel 0 to `2·117/255 − 1`,
channel 1 to `2·104/255 − 1` and channel 2 to `2·123/255 − 1`, and leaves
every pixel outside that region unchanged in the masked image. -/
theorem masking_region_characterization :
    ∀ (B : ℕ) (images : Img B) (b : Fin B) (c : Fin 3) (i j : Fin 128),
      ContextEncoder.forwardMasked images b c i j =
        (if 36 ≤ i.val ∧ i.val ≤ 91 ∧ 36 ≤ j.val ∧ j.val ≤ 91 then
          (if c.val = 0 then 2 * (117 / 255) - 1
           else if c.val = 1 then 2 * (104 / 255) - 1
           else 2 * (123 / 255) - 1)
        else images b c i j)
      ∧ ContextEncoder.encodeMasked images b c i j =
        (if 36 ≤ i.val ∧ i.val ≤ 91 ∧ 36 ≤ j.val ∧ j.val ≤ 91 then
          (if c.val = 0 then 2 * (117 / 255) - 1
           else if c.val = 1 then 2 * (104 / 255) - 1
           else 2 * (123 / 255) - 1)
        else images b c i j) := by
  intro B images b c i j
  exact ⟨forwardMasked_pixel B images b c i j, encodeMasked_pixel B images b c i j⟩

/-- C2: `forward` returns the mean-squared error between the decoder's
reconstruction and the ground-truth `64 × 64` center crop of the (unmasked)
input — the sum ranges over the `B · 3 · 64 · 64` crop entries only, never
the full `128 × 128` image — together with the flattened latent code of the
masked input. -/
theorem forward_loss_is_center_mse :
    ∀ (B : ℕ) (m : ContextEncoder B) (images : Img B),
      (m.forward images).1.1 =
        (∑ b : Fin B, ∑ c : Fin 3, ∑ i : Fin 64, ∑ j : Fin 64,
          (m.decoder (m.encoder (ContextEncoder.forwardMasked images)) b c i j
            - images b c ⟨32 + i.val, by omega⟩ ⟨32 + j.val, by omega⟩) ^ 2)
          / (B * 3 * 64 * 64 : ℚ)
      ∧ (m.forward images).1.2 =
          fun b k => m.encoder (ContextEncoder.forwardMasked images) b k := by
  intro B m images
  exact ⟨rfl, rfl⟩

/-- C4: `encode` returns exactly the second component of `forward`: the same
center masking followed by the same encoder, flattened to `(B, 1024)`. -/
theorem encode_eq_forward_latent :
    ∀ (B : ℕ) (m : ContextEncoder B) (images : Img B),
      (m.encode images).1 = (m.forward images).1.2 := by
  intro B m images
  rfl

/-- C6: for every batch size `B ≥ 1`, the stride-2 convolution stack maps a
`(3, 128, 128)` input down to a `(1024, 1, 1)` output, so
`encode`'s `.view(B, -1)` produces a rank-2 result of shape `(B, 1024)`. -/
theorem encode_output_shape :
    ∀ B : ℕ, 1 ≤ B →
      encoderOutShape = (1024, 1, 1) ∧ encodeOutShape B = (B, 1024) := by
  intro B _
  exact ⟨rfl, rfl⟩

/-- Witness for C6 at the concrete batch size `5`. -/
theorem encode_output_shape_witness :
    (1 : ℕ) ≤ 5 ∧ (encoderOutShape = (1024, 1, 1) ∧ encodeOutShape 5 = (5, 1024)) :=
  ⟨by decide, encode_output_shape 5 (by decide)⟩

/-- C7: any `--task` value other than `context_encoder`, `rotation`, `cpc`,
`simclr` makes `main` raise the generic `Exception` at the dispatch, before
any training occurs (no loop state is ever produced); each of the four
recognised values passes the dispatch without an exception. -/
theorem invalid_task_raises :
    ∀ (t : String) (accs : List ℚ),
      (t ∉ (["context_encoder", "rotation", "cpc", "simclr"] : List String) →
        mainRun t accs = Except.error "Invalid task")
      ∧ (t ∈ (["context_encoder", "rotation", "cpc", "simclr"] : List String) →
        (selectModel t).isOk = true ∧ (mainRun t accs).isOk = true) := by
  intro t accs
  constructor
  · intro h
    simp only [List.mem_cons, List.mem_singleton, not_or] at h
    obtain ⟨h1, h2, h3, h4, -⟩ := h
    simp [mainRun, selectModel, Except.map, h1, h2, h3, h4]
  · intro h
    simp only [List.mem_cons, List.not_mem_nil, or_false] at h
    rcases h with h | h | h | h <;> subst h <;>
      simp [mainRun, selectModel, Except.isOk, Except.toBool, Except.map]

/-- Witness for C7: the invalid task string `"foo"` raises, and the valid
task string `"rotation"` does not. -/
theorem invalid_task_raises_witness :
    mainRun "foo" [] = Except.error "Invalid task"
    ∧ ((selectModel "rotation").isOk = true ∧ (mainRun "rotation" []).isOk = true) :=
  ⟨(invalid_task_raises "foo" []).1 (by decide),
   (invalid_task_raises "rotation" []).2 (by decide)⟩

/-! ### Lemmas about the epoch loop -/

/-- Unfolding one epoch of the loop when `e` is a real epoch index. -/
lemma loopState_succ_of_lt (accs : List ℚ) (e : ℕ) (h : e < accs.length) :
    loopState accs (e + 1) = epochStep e (accs.get ⟨e, h⟩) (loopState accs e) := by
  have hg : accs[e]? = some accs[e] := List.getElem?_eq_getElem h
  simp [loopState, hg, List.get_eq_getElem]

/-- Past the end of the accuracy list the loop state is frozen. -/
lemma loopState_succ_none (accs : List ℚ) (k : ℕ) (h : accs.length ≤ k) :
    loopState accs (k + 1) = loopState accs k := by
  have hg : accs[k]? = none := List.getElem?_eq_none h
  simp [loopState, hg]

/-- The running `best_acc` exceeds a bound `a` exactly when `a` is positive
and every accuracy seen so far is below `a`. -/
lemma loopState_best_lt (accs : List ℚ) (a : ℚ) :
    ∀ e : ℕ, e ≤ accs.length →
      ((loopState accs e).1 < a ↔
        0 < a ∧ ∀ i : Fin accs.length, i.val < e → accs.get i < a) := by
  intro e
  induction e with
  | zero =>
    intro _
    simp [loopState]
  | succ e ih =>
    intro he
    have hlt : e < accs.length := by omega
    rw [loopState_succ_of_lt accs e hlt]
    have ihe := ih (by omega)
    simp only [epochStep, max_lt_iff, ihe]
    constructor
    · rintro ⟨ha, hpos, hall⟩
      refine ⟨hpos, fun i hi => ?_⟩
      rcases Nat.lt_succ_iff_lt_or_eq.mp hi with hi2 | hi2
      · exact hall i hi2
      · have : i = ⟨e, hlt⟩ := Fin.ext hi2
        rw [this]
        exact ha
    · rintro ⟨hpos, hall⟩
      exact ⟨hall ⟨e, hlt⟩ (Nat.lt_succ_self e), hpos,
        fun i hi => hall i (Nat.lt_succ_of_lt hi)⟩

/-- Every accuracy seen in the first `e` epochs is bounded by the running
`best_acc`. -/
lemma loopState_best_le (accs : List ℚ) :
    ∀ e : ℕ, ∀ i : Fin accs.length, i.val < e →
      accs.get i ≤ (loopState accs e).1 := by
  intro e
  induction e with
  | zero =>
    intro i hi
    exact absurd hi (Nat.not_lt_zero _)
  | succ e ih =>
    intro i hi
    by_cases hlt : e < accs.length
    · rw [loopState_succ_of_lt accs e hlt]
      simp only [epochStep]
      rcases Nat.lt_succ_iff_lt_or_eq.mp hi with hi2 | hi2
      · exact le_trans (ih i hi2) (le_max_right _ _)
      · have : i = ⟨e, hlt⟩ := Fin.ext hi2
        rw [this]
        exact le_max_left _ _
    · rw [loopState_succ_none accs e (by omega)]
      have hi2 : i.val < e := by
        have := i.isLt
        omega
      exact ih i hi2

/-- The running `best_acc` is `0` or one of the accuracies seen so far. -/
lemma loopState_best_attained (accs : List ℚ) :
    ∀ e : ℕ, (loopState accs e).1 = 0 ∨
      ∃ i : Fin accs.length, i.val < e ∧ (loopState accs e).1 = accs.get i := by
  intro e
  induction e with
  | zero =>
    left
    simp [loopState]
  | succ e ih =>
    by_cases hlt : e < accs.length
    case neg =>
      rw [loopState_succ_none accs e (by omega)]
      rcases ih with h0 | ⟨i, hi, hv⟩
      · exact Or.inl h0
      · exact Or.inr ⟨i, Nat.lt_succ_of_lt hi, hv⟩
    case pos =>
      rw [loopState_succ_of_lt accs e hlt]
      simp only [epochStep]
      rcases le_total (accs.get ⟨e, hlt⟩) ((loopState accs e).1) with hle | hle
      · rw [max_eq_right hle]
        rcases ih with h0 | ⟨i, hi, hv⟩
        · exact Or.inl h0
        · exact Or.inr ⟨i, Nat.lt_succ_of_lt hi, hv⟩
      · rw [max_eq_left hle]
        exact Or.inr ⟨⟨e, hlt⟩, Nat.lt_succ_self e, rfl⟩

/-- The running `best_acc` never decreases from one epoch to the next. -/
lemma loopState_best_le_succ (accs : List ℚ) (k : ℕ) :
    (loopState accs k).1 ≤ (loopState accs (k + 1)).1 := by
  by_cases hlt : k < accs.length
  · rw [loopState_succ_of_lt accs k hlt]
    simp only [epochStep]
    exact le_max_right _ _
  · rw [loopState_succ_none accs k (by omega)]

/-- The running `best_acc` is monotone in the number of epochs run. -/
lemma loopState_best_mono (accs : List ℚ) :
    ∀ {e e2 : ℕ}, e ≤ e2 → (loopState accs e).1 ≤ (loopState accs e2).1 := by
  intro e e2 h
  induction e2 with
  | zero =>
    have : e = 0 := by omega
    rw [this]
  | succ k ih =>
    rcases Nat.le_succ_iff.mp h with h2 | h2
    · exact le_trans (ih h2) (loopState_best_le_succ accs k)
    · rw [h2]

/-- Any checkpoint stored in `model_best.pth.tar` after `k` epochs was
written by some epoch `< k`, so its `epoch` field is at most `k`. -/
lemma modelBest_epoch_le (accs : List ℚ) :
    ∀ k : ℕ, ∀ ck : Ckpt,
      (loopState accs k).2.modelBestFile = some ck → ck.epoch ≤ k := by
  intro k
  induction k with
  | zero =>
    intro ck hck
    simp [loopState] at hck
  | succ k ih =>
    intro ck hck
    by_cases hlt : k < accs.length
    case neg =>
      rw [loopState_succ_none accs k (by omega)] at hck
      exact Nat.le_succ_of_le (ih ck hck)
    case pos =>
      rw [loopState_succ_of_lt accs k hlt] at hck
      simp only [epochStep, save_checkpoint] at hck
      by_cases hb : accs.get ⟨k, hlt⟩ > (loopState accs k).1
      · rw [if_pos (by exact decide_eq_true hb)] at hck
        cases hck
        exact le_refl _
      · rw [if_neg (by simpa using hb)] at hck
        exact Nat.le_succ_of_le (ih ck hck)

/-- The checkpoint file written at the end of epoch `e` records `epoch + 1`
and the updated running `best_acc`. -/
lemma checkpointFile_eq (accs : List ℚ) (e : ℕ) (h : e < accs.length) :
    (loopState accs (e + 1)).2.checkpointFile =
      some ⟨e + 1, (loopState accs (e + 1)).1⟩ := by
  rw [loopState_succ_of_lt accs e h]
  simp [epochStep, save_checkpoint]

/-- `model_best.pth.tar` after epoch `e`: overwritten with the fresh record
when this epoch improved on the running best, untouched otherwise. -/
lemma modelBest_succ (accs : List ℚ) (e : ℕ) (h : e < accs.length) :
    (loopState accs (e + 1)).2.modelBestFile =
      if accs.get ⟨e, h⟩ > (loopState accs e).1
      then some ⟨e + 1, (loopState accs (e + 1)).1⟩
      else (loopState accs e).2.modelBestFile := by
  rw [loopState_succ_of_lt accs e h]
  simp only [epochStep, save_checkpoint]
  by_cases hb : accs.get ⟨e, h⟩ > (loopState accs e).1
  · rw [if_pos hb, if_pos (decide_eq_true hb)]
  · rw [if_neg hb, if_neg (by simpa using hb)]

/-- C5: during the epoch loop, `model_best.pth.tar` is overwritten at epoch
`e` (its content changes) if and only if that epoch's validation accuracy
is strictly greater than every preceding epoch's accuracy and strictly
greater than the initial running best `0`; otherwise the file is left
unchanged by that epoch. -/
theorem model_best_overwrite_iff_strict_improvement :
    ∀ (accs : List ℚ) (e : ℕ) (h : e < accs.length),
      (loopState accs (e + 1)).2.modelBestFile ≠ (loopState accs e).2.modelBestFile
      ↔ (0 < accs.get ⟨e, h⟩ ∧
         ∀ i : Fin accs.length, i.val < e → accs.get i < accs.get ⟨e, h⟩) := by
  intro accs e h
  rw [← loopState_best_lt accs (accs.get ⟨e, h⟩) e (le_of_lt h)]
  rw [modelBest_succ accs e h]
  constructor
  · intro hne
    by_contra hnb
    rw [if_neg hnb] at hne
    exact hne rfl
  · intro hb
    rw [if_pos hb]
    intro heq
    have h2 := modelBest_epoch_le accs e _ heq.symm
    simp only at h2
    omega

/-- Witness for C5 on the concrete accuracy list `[1]` at epoch `0`: the
first epoch's accuracy `1` beats the initial best `0`, and the file is
overwritten. -/
theorem model_best_overwrite_witness :
    (0 : ℕ) < [(1 : ℚ)].length ∧
    ((loopState [(1 : ℚ)] 1).2.modelBestFile ≠ (loopState [(1 : ℚ)] 0).2.modelBestFile
      ↔ (0 < [(1 : ℚ)].get ⟨0, by decide⟩ ∧
         ∀ i : Fin [(1 : ℚ)].length, i.val < 0 → [(1 : ℚ)].get i < [(1 : ℚ)].get ⟨0, by decide⟩)) :=
  ⟨by decide, model_best_overwrite_iff_strict_improvement [(1 : ℚ)] 0 (by decide)⟩

/-- C10: the checkpoint record written at the end of epoch `e` carries a
`best_acc` equal to the maximum of the validation accuracies of epochs
`0..e` together with the initial value `0` (it bounds them all and is
either `0` or one of them), and `best_acc` is monotonically nondecreasing
across successive checkpoint writes. -/
theorem checkpoint_best_acc_is_running_max :
    ∀ (accs : List ℚ) (e : ℕ) (h : e < accs.length),
      ∃ ck : Ckpt,
        (loopState accs (e + 1)).2.checkpointFile = some ck
        ∧ (∀ i : Fin accs.length, i.val ≤ e → accs.get i ≤ ck.best_acc)
        ∧ (ck.best_acc = 0 ∨ ∃ i : Fin accs.length, i.val ≤ e ∧ ck.best_acc = accs.get i)
        ∧ (∀ e2 : ℕ, e2 < accs.length → e ≤ e2 →
            ∀ ck2 : Ckpt, (loopState accs (e2 + 1)).2.checkpointFile = some ck2 →
              ck.best_acc ≤ ck2.best_acc) := by
  intro accs e h
  refine ⟨⟨e + 1, (loopState accs (e + 1)).1⟩, checkpointFile_eq accs e h, ?_, ?_, ?_⟩
  · intro i hi
    exact loopState_best_le accs (e + 1) i (by omega)
  · rcases loopState_best_attained accs (e + 1) with h0 | ⟨i, hi, hv⟩
    · exact Or.inl h0
    · exact Or.inr ⟨i, by omega, hv⟩
  · intro e2 h2 hle ck2 hck2
    rw [checkpointFile_eq accs e2 h2] at hck2
    cases hck2
    exact loopState_best_mono accs (by omega)

/-- Witness for C10 on the concrete accuracy list `[1]` at epoch `0`. -/
theorem checkpoint_best_acc_witness :
    (0 : ℕ) < [(1 : ℚ)].length ∧
    (∃ ck : Ckpt,
      (loopState [(1 : ℚ)] 1).2.checkpointFile = some ck
      ∧ (∀ i : Fin [(1 : ℚ)].length, i.val ≤ 0 → [(1 : ℚ)].get i ≤ ck.best_acc)
      ∧ (ck.best_acc = 0 ∨ ∃ i : Fin [(1 : ℚ)].length, i.val ≤ 0 ∧ ck.best_acc = [(1 : ℚ)].get i)
      ∧ (∀ e2 : ℕ, e2 < [(1 : ℚ)].length → 0 ≤ e2 →
          ∀ ck2 : Ckpt, (loopState [(1 : ℚ)] (e2 + 1)).2.checkpointFile = some ck2 →
            ck.best_acc ≤ ck2.best_acc)) :=
  ⟨by decide, checkpoint_best_acc_is_running_max [(1 : ℚ)] 0 (by decide)⟩

/-! ### Dependence of the reconstruction loss on context pixels

The loss returned by `forward` compares the decoder's reconstruction with
the center crop, but the reconstruction is computed from the whole masked
image — the encoder reads the context pixels outside the `64 × 64` center
(that is the point of a context encoder).  Below, a concrete model instance
and concrete inputs exhibit this dependence. -/

/-- The all-zero image batch (batch size 1). -/
def cexImgZero : Img 1 := fun _ _ _ _ => 0

/-- An image that is `1` at the single pixel `(channel 0, row 0, column 0)`
— outside the `64 × 64` center — and `0` everywhere else. -/
def cexImgCorner : Img 1 := fun _ c i j =>
  if c.val = 0 ∧ i.val = 0 ∧ j.val = 0 then 1 else 0

/-- An image that is `1` on channel-0 rows `≥ 96` — strictly below the
`64 × 64` center — and `0` everywhere else. -/
def cexImgFar : Img 1 := fun _ c i _ =>
  if c.val = 0 ∧ 96 ≤ i.val then 1 else 0

/-- A concrete instance of the model interface: the encoder reads the
top-left pixel of (channel 0 of) the masked image into every latent
coordinate, the decoder broadcasts latent coordinate 0 to every output
pixel.  (The real convolution stack equally reads pixels outside the
center: the receptive field of its final `1 × 1` output covers the whole
`128 × 128` input.) -/
def cexModel : ContextEncoder 1 where
  encoder := fun img => fun _ _ => img 0 0 0 0
  decoder := fun z => fun b _ _ _ => z b 0

/-- The center crop of `cexImgCorner` is all zero: its only nonzero pixel
has row index `0 < 32`. -/
lemma centerCrop_corner_zero :
    ∀ (b : Fin 1) (c : Fin 3) (i j : Fin 64),
      ContextEncoder.centerCrop cexImgCorner b c i j = 0 := by
  intro b c i j
  simp only [ContextEncoder.centerCrop, cexImgCorner]
  rw [if_neg]
  rintro ⟨-, h2, -⟩
  omega

/-- The center crop of `cexImgFar` is all zero: its nonzero rows start at
`96`, past the crop's last row `95`. -/
lemma centerCrop_far_zero :
    ∀ (b : Fin 1) (c : Fin 3) (i j : Fin 64),
      ContextEncoder.centerCrop cexImgFar b c i j = 0 := by
  intro b c i j
  simp only [ContextEncoder.centerCrop, cexImgFar]
  rw [if_neg]
  rintro ⟨-, h2⟩
  omega

/-- C1, counterexample: the two batches `cexImgZero` and `cexImgCorner`
agree on the whole `64 × 64` center region (both crops are all zero) and
differ only at a pixel outside it, yet `forward` returns Loss `0` for the
first and Loss `1` for the second — the loss is not invariant to pixels
outside the center crop, because the encoder reads them. -/
theorem loss_depends_on_context_pixels :
    ContextEncoder.centerCrop cexImgZero = ContextEncoder.centerCrop cexImgCorner
    ∧ (cexModel.forward cexImgZero).1.1 ≠ (cexModel.forward cexImgCorner).1.1 := by
  constructor
  · funext b c i j
    rw [centerCrop_corner_zero b c i j]
    rfl
  · have hmz : ContextEncoder.forwardMasked cexImgZero 0 0 0 0 = 0 := by decide
    have hmc : ContextEncoder.forwardMasked cexImgCorner 0 0 0 0 = 1 := by decide
    have hloss0 : (cexModel.forward cexImgZero).1.1 = 0 := by
      show ContextEncoder.mseLoss
          (cexModel.decoder (cexModel.encoder (ContextEncoder.forwardMasked cexImgZero)))
          (ContextEncoder.centerCrop cexImgZero) = 0
      unfold ContextEncoder.mseLoss
      simp [cexModel, hmz, ContextEncoder.centerCrop, cexImgZero]
    have hloss1 : (cexModel.forward cexImgCorner).1.1 = 1 := by
      show ContextEncoder.mseLoss
          (cexModel.decoder (cexModel.encoder (ContextEncoder.forwardMasked cexImgCorner)))
          (ContextEncoder.centerCrop cexImgCorner) = 1
      unfold ContextEncoder.mseLoss
      have hterm : ∀ (b : Fin 1) (c : Fin 3) (i j : Fin 64),
          (cexModel.decoder (cexModel.encoder (ContextEncoder.forwardMasked cexImgCorner)) b c i j
            - ContextEncoder.centerCrop cexImgCorner b c i j) ^ 2 = 1 := by
        intro b c i j
        rw [centerCrop_corner_zero b c i j]
        simp [cexModel, hmc]
      simp only [hterm, Finset.sum_const, Finset.card_univ, Fintype.card_fin]
      norm_num
    rw [hloss0, hloss1]
    norm_num

/-- C1, amended: for a fixed model, if two batches agree on the `64 × 64`
center region and the encoder maps their masked images to the same latent
code, then `forward` returns the same Loss for both.  (The unrestricted
claim fails: the Loss also depends on pixels outside the center crop,
which reach the encoder through the masked image.) -/
theorem loss_invariant_given_center_and_latent :
    ∀ (B : ℕ) (m : ContextEncoder B) (x y : Img B),
      ContextEncoder.centerCrop x = ContextEncoder.centerCrop y →
      m.encoder (ContextEncoder.forwardMasked x) = m.encoder (ContextEncoder.forwardMasked y) →
      (m.forward x).1.1 = (m.forward y).1.1 := by
  intro B m x y hc hz
  show ContextEncoder.mseLoss (m.decoder (m.encoder (ContextEncoder.forwardMasked x)))
      (ContextEncoder.centerCrop x)
    = ContextEncoder.mseLoss (m.decoder (m.encoder (ContextEncoder.forwardMasked y)))
      (ContextEncoder.centerCrop y)
  rw [hc, hz]

/-- Witness for the amended C1: `cexImgZero` and `cexImgFar` differ (at
out-of-center pixels the concrete encoder ignores), agree on the center,
and receive the same latent code, so their losses coincide. -/
theorem loss_invariant_witness :
    (cexModel.forward cexImgZero).1.1 = (cexModel.forward cexImgFar).1.1 :=
  loss_invariant_given_center_and_latent 1 cexModel cexImgZero cexImgFar
    (by
      funext b c i j
      rw [centerCrop_far_zero b c i j]
      rfl)
    (by
      funext b k
      show ContextEncoder.forwardMasked cexImgZero 0 0 0 0
        = ContextEncoder.forwardMasked cexImgFar 0 0 0 0
      decide)

/-- C8: `encode` mutates its input in place: after the call, the caller's
`images` tensor has the `56 × 56` inner region (rows and columns `36..91`)
of all three channels overwritten with the fixed mask constants, and every
other pixel keeps its original value. -/
theorem encode_mutates_input :
    ∀ (B : ℕ) (m : ContextEncoder B) (images : Img B) (b : Fin B) (c : Fin 3)
      (i j : Fin 128),
      (m.encode images).2 b c i j =
        if 36 ≤ i.val ∧ i.val ≤ 91 ∧ 36 ≤ j.val ∧ j.val ≤ 91 then
          ContextEncoder.maskVal c
        else images b c i j := by
  intro B m images b c i j
  exact encodeMasked_pixel B images b c i j

/-- C9: `forward` leaves the caller's `images` tensor unchanged: both the
extracted center crop and the masked image are clones, so every element of
the input keeps its value across the call. -/
theorem forward_preserves_input :
    ∀ (B : ℕ) (m : ContextEncoder B) (images : Img B),
      (m.forward images).2 = images := by
  intro B m images
  rfl
